import Mathlib

/-!
Shallow embedding of `src/simulator/physics.py` (Beer–Lambert toy X-ray
simulator) over the real numbers, together with proofs of the spec's
testable properties.

The source computes, for tube current `mA`, tube voltage `kVp` and an
output grid of shape `(H, W)`:

  * a thickness map `t(i, j) = 2 * sqrt(max 0 (R^2 - r^2))` for pixels inside
    the sphere silhouette (`r <= R`), else `0`;
  * `mu = max(MU_MIN, MU_REF * (KVP_REF / max(10, kVp)) ** MU_POWER)`;
  * `I0 = I0_MIN + (I0_MAX - I0_MIN) * clip((mA - 10) / 490, 0, 1)`;
  * `I(i, j) = clip(I0 * exp(-mu * t(i, j)), 0, 1)`.

Machine floats are modelled by exact reals; `numpy` arrays by lists of
lists built from `List.range`, matching the `linspace`/`meshgrid` grid
construction of the source. The `assert H > 0 and W > 0` guard in
`_sphere_thickness_map` is modelled by an `Option`-returning wrapper.
-/

namespace Physics

noncomputable section

/-- `FOV_X_CM` from the source: physical field-of-view width in cm. -/
def FOV_X_CM : ℝ := 20.0

/-- `SPHERE_RADIUS_CM` from the source: phantom sphere radius in cm. -/
def SPHERE_RADIUS_CM : ℝ := 6.0

/-- `SPHERE_CENTER_CM` from the source: sphere center offset in cm. -/
def SPHERE_CENTER_CM : ℝ × ℝ := (0.0, 0.0)

/-- `MU_REF_CM1` from the source: reference attenuation coefficient. -/
def MU_REF_CM1 : ℝ := 0.50

/-- `KVP_REF` from the source: reference tube voltage. -/
def KVP_REF : ℝ := 60.0

/-- `MU_POWER` from the source: power-law exponent for the voltage falloff. -/
def MU_POWER : ℝ := 2.2

/-- `MU_MIN` from the source: floor for the attenuation coefficient. -/
def MU_MIN : ℝ := 0.05

/-- `I0_MIN` from the source: incident intensity at the low-current end. -/
def I0_MIN : ℝ := 0.60

/-- `I0_MAX` from the source: incident intensity at the high-current end. -/
def I0_MAX : ℝ := 1.40

/-- `np.clip(x, lo, hi)`: clamp `x` into `[lo, hi]`. -/
def clip (x lo hi : ℝ) : ℝ := min hi (max lo x)

/-- `_normalize(v, lo, hi)` from the source: clamp-linear normalization of
`v` into `[0, 1]` over `[lo, hi]`, returning `0` when `hi <= lo`. -/
def normalize (v lo hi : ℝ) : ℝ :=
  if hi ≤ lo then 0 else clip ((v - lo) / (hi - lo)) 0 1

/-- Pixel size in cm per pixel: `fov_x_cm / W` in `_sphere_thickness_map`. -/
def pixelSize (W : ℕ) : ℝ := FOV_X_CM / (W : ℝ)

/-- Physical x-coordinate of column `j`:
`(np.linspace(0, W-1, W)[j] - (W-1)/2) * px_cm`. -/
def xcoord (W : ℕ) (j : ℕ) : ℝ :=
  ((j : ℝ) - ((W : ℝ) - 1) / 2) * pixelSize W

/-- Physical y-coordinate of row `i`:
`(np.linspace(0, H-1, H)[i] - (H-1)/2) * px_cm`. -/
def ycoord (H W : ℕ) (i : ℕ) : ℝ :=
  ((i : ℝ) - ((H : ℝ) - 1) / 2) * pixelSize W

/-- Radial distance `r = sqrt(dx**2 + dy**2)` of pixel `(i, j)` from the
sphere center, in cm. -/
def rdist (H W : ℕ) (i j : ℕ) : ℝ :=
  Real.sqrt ((xcoord W j - SPHERE_CENTER_CM.1) ^ 2 +
    (ycoord H W i - SPHERE_CENTER_CM.2) ^ 2)

/-- One entry of the thickness map of `_sphere_thickness_map`:
`2 * sqrt(max(0, R^2 - r^2))` inside the silhouette (`r <= R`), else `0`. -/
def thicknessEntry (H W : ℕ) (i j : ℕ) : ℝ :=
  if rdist H W i j ≤ SPHERE_RADIUS_CM then
    2 * Real.sqrt (max 0 (SPHERE_RADIUS_CM ^ 2 - rdist H W i j ^ 2))
  else 0

/-- The full thickness map of `_sphere_thickness_map`, row major, as built
over the `meshgrid` of the centered coordinate grid. -/
def sphereThicknessMap (H W : ℕ) : List (List ℝ) :=
  (List.range H).map fun i => (List.range W).map fun j => thicknessEntry H W i j

/-- Step 2 of `simulate`: effective attenuation
`mu = max(MU_MIN, MU_REF_CM1 * (KVP_REF / max(10, kVp)) ** MU_POWER)`. -/
def muEff (kVp : ℝ) : ℝ :=
  max MU_MIN (MU_REF_CM1 * (KVP_REF / max 10 kVp) ^ MU_POWER)

/-- Step 3 of `simulate`: incident intensity
`I0 = I0_MIN + (I0_MAX - I0_MIN) * _normalize(mA, 10.0, 500.0)`. -/
def I0val (mA : ℝ) : ℝ :=
  I0_MIN + (I0_MAX - I0_MIN) * normalize mA 10 500

/-- Steps 4–5 of `simulate` at one pixel:
`clip(I0 * exp(-mu * t), 0, 1)`. -/
def simulatePixel (mA kVp : ℝ) (H W : ℕ) (i j : ℕ) : ℝ :=
  clip (I0val mA * Real.exp (-muEff kVp * thicknessEntry H W i j)) 0 1

/-- `simulate(mA, kVp, (H, W), seed)` from the source, as the row-major list
of pixel intensities. The `seed` argument is accepted and, as in the source,
never used by the body. -/
def simulate (mA kVp : ℝ) (H W : ℕ) (seed : Option ℤ) : List (List ℝ) :=
  (List.range H).map fun i => (List.range W).map fun j =>
    simulatePixel mA kVp H W i j

/-- `simulate` including the `assert H > 0 and W > 0` guard of
`_sphere_thickness_map` (shape entries as Python integers): `none` models
the assertion failure. -/
def simulateChecked (mA kVp : ℝ) (Hs Ws : ℤ) (seed : Option ℤ) :
    Option (List (List ℝ)) :=
  if 0 < Hs ∧ 0 < Ws then some (simulate mA kVp Hs.toNat Ws.toNat seed)
  else none

end

/-! ### Basic lemmas about the embedded operations -/

theorem clip_le_hi (x lo hi : ℝ) : clip x lo hi ≤ hi :=
  min_le_left _ _

theorem lo_le_clip (x lo hi : ℝ) (h : lo ≤ hi) : lo ≤ clip x lo hi :=
  le_min h (le_max_left _ _)

theorem clip_mono (lo hi : ℝ) {x y : ℝ} (h : x ≤ y) :
    clip x lo hi ≤ clip y lo hi :=
  min_le_min le_rfl (max_le_max le_rfl h)

theorem normalize_nonneg (v lo hi : ℝ) : 0 ≤ normalize v lo hi := by
  unfold normalize
  split
  · exact le_refl 0
  · exact lo_le_clip _ _ _ zero_le_one

theorem normalize_le_one (v lo hi : ℝ) : normalize v lo hi ≤ 1 := by
  unfold normalize
  split
  · exact zero_le_one
  · exact clip_le_hi _ _ _

theorem thicknessEntry_nonneg (H W i j : ℕ) : 0 ≤ thicknessEntry H W i j := by
  unfold thicknessEntry
  split
  · positivity
  · exact le_refl 0

theorem muEff_pos (kVp : ℝ) : 0 < muEff kVp :=
  lt_of_lt_of_le (by norm_num [MU_MIN]) (le_max_left _ _)

theorem I0val_lower (mA : ℝ) : I0_MIN ≤ I0val mA := by
  unfold I0val
  nlinarith [normalize_nonneg mA 10.0 500.0, normalize_le_one mA 10.0 500.0,
    show (0:ℝ) ≤ I0_MAX - I0_MIN by norm_num [I0_MIN, I0_MAX]]

theorem I0val_upper (mA : ℝ) : I0val mA ≤ I0_MAX := by
  unfold I0val
  nlinarith [normalize_le_one mA 10.0 500.0,
    show (0:ℝ) ≤ I0_MAX - I0_MIN by norm_num [I0_MIN, I0_MAX]]

theorem I0val_pos (mA : ℝ) : 0 < I0val mA :=
  lt_of_lt_of_le (by norm_num [I0_MIN]) (I0val_lower mA)

theorem simulatePixel_nonneg (mA kVp : ℝ) (H W i j : ℕ) :
    0 ≤ simulatePixel mA kVp H W i j :=
  lo_le_clip _ _ _ zero_le_one

theorem simulatePixel_le_one (mA kVp : ℝ) (H W i j : ℕ) :
    simulatePixel mA kVp H W i j ≤ 1 :=
  clip_le_hi _ _ _

theorem simulatePixel_pos (mA kVp : ℝ) (H W i j : ℕ) :
    0 < simulatePixel mA kVp H W i j := by
  have hprod : 0 < I0val mA * Real.exp (-muEff kVp * thicknessEntry H W i j) :=
    mul_pos (I0val_pos mA) (Real.exp_pos _)
  unfold simulatePixel clip
  exact lt_min one_pos (lt_of_lt_of_le hprod (le_max_right _ _))

theorem simulate_entry (mA kVp : ℝ) (H W : ℕ) (s : Option ℤ) (i j : ℕ)
    (hi : i < H) (hj : j < W) :
    ((simulate mA kVp H W s).getD i []).getD j 0 = simulatePixel mA kVp H W i j := by
  simp [simulate, List.getD_eq_getElem?_getD, List.getElem?_map,
    List.getElem?_range, hi, hj]

theorem normalize_mono {c1 c2 : ℝ} (lo hi : ℝ) (h : c1 ≤ c2) :
    normalize c1 lo hi ≤ normalize c2 lo hi := by
  unfold normalize
  split
  · exact le_refl 0
  · rename_i hlt
    push_neg at hlt
    exact clip_mono _ _
      ((div_le_div_iff_of_pos_right (sub_pos.mpr hlt)).mpr (by linarith))

theorem I0val_mono {c1 c2 : ℝ} (h : c1 ≤ c2) : I0val c1 ≤ I0val c2 := by
  unfold I0val
  have h08 : (0:ℝ) ≤ I0_MAX - I0_MIN := by norm_num [I0_MIN, I0_MAX]
  exact add_le_add_left
    (mul_le_mul_of_nonneg_left (normalize_mono 10 500 h) h08) _

theorem normalize_eq_zero {v lo hi : ℝ} (h : v ≤ lo) : normalize v lo hi = 0 := by
  unfold normalize
  split
  · rfl
  · rename_i hlt
    push_neg at hlt
    unfold clip
    rw [max_eq_left (div_nonpos_iff.mpr (Or.inr ⟨by linarith, by linarith⟩)),
      min_eq_right zero_le_one]

theorem normalize_eq_one {v lo hi : ℝ} (h : hi ≤ v) (hlt : lo < hi) :
    normalize v lo hi = 1 := by
  unfold normalize clip
  rw [if_neg (not_le.mpr hlt)]
  have h1 : (1:ℝ) ≤ (v - lo) / (hi - lo) :=
    (one_le_div (sub_pos.mpr hlt)).mpr (by linarith)
  rw [max_eq_right (le_trans zero_le_one h1), min_eq_left h1]

theorem simulate_congr_I0 {c1 c2 : ℝ} (kVp : ℝ) (H W : ℕ) (s : Option ℤ)
    (h : I0val c1 = I0val c2) :
    simulate c1 kVp H W s = simulate c2 kVp H W s := by
  simp only [simulate, simulatePixel, h]

theorem simulate_congr_mu {v1 v2 : ℝ} (mA : ℝ) (H W : ℕ) (s : Option ℤ)
    (h : muEff v1 = muEff v2) :
    simulate mA v1 H W s = simulate mA v2 H W s := by
  simp only [simulate, simulatePixel, h]

theorem muEff_of_le_ten {v : ℝ} (hv : v ≤ 10) : muEff v = muEff 10 := by
  unfold muEff
  rw [max_eq_left hv, max_self]

theorem muEff_antitone {v1 v2 : ℝ} (hv1 : 10 < v1) (h12 : v1 ≤ v2) :
    muEff v2 ≤ muEff v1 := by
  unfold muEff
  have hv1p : (0:ℝ) < v1 := lt_trans (by norm_num) hv1
  have hv2p : (0:ℝ) < v2 := lt_of_lt_of_le hv1p h12
  rw [max_eq_right (le_of_lt hv1), max_eq_right (le_of_lt (lt_of_lt_of_le hv1 h12))]
  refine max_le_max le_rfl (mul_le_mul_of_nonneg_left ?_ (by norm_num [MU_REF_CM1]))
  refine Real.rpow_le_rpow
    (le_of_lt (div_pos (by norm_num [KVP_REF]) hv2p)) ?_ (by norm_num [MU_POWER])
  have h60 : (0:ℝ) ≤ KVP_REF := by norm_num [KVP_REF]
  gcongr

theorem rdist_pos_of_sq {H W i j : ℕ}
    (h : 0 < (xcoord W j - SPHERE_CENTER_CM.1) ^ 2 +
      (ycoord H W i - SPHERE_CENTER_CM.2) ^ 2) :
    0 < rdist H W i j :=
  Real.sqrt_pos.mpr h

theorem sqrt_thirtysix : Real.sqrt 36 = 6 := by
  rw [show (36:ℝ) = 6 ^ 2 by norm_num, Real.sqrt_sq (by norm_num)]

theorem thicknessEntry_lt_of_rdist_pos {H W i j : ℕ}
    (h : 0 < rdist H W i j) : thicknessEntry H W i j < 12 := by
  unfold thicknessEntry
  split
  · have hr2 : 0 < rdist H W i j ^ 2 := pow_pos h 2
    have hmax : max 0 (SPHERE_RADIUS_CM ^ 2 - rdist H W i j ^ 2) < 36 := by
      rw [max_lt_iff]
      constructor
      · norm_num
      · norm_num [SPHERE_RADIUS_CM]
        linarith
    have hs : Real.sqrt (max 0 (SPHERE_RADIUS_CM ^ 2 - rdist H W i j ^ 2)) < 6 := by
      calc Real.sqrt (max 0 (SPHERE_RADIUS_CM ^ 2 - rdist H W i j ^ 2))
          < Real.sqrt 36 := Real.sqrt_lt_sqrt (le_max_left _ _) hmax
        _ = 6 := sqrt_thirtysix
    linarith
  · norm_num

theorem rdist_center (n : ℕ) (hodd : (n:ℝ) - 1 = 2 * 128) :
    rdist n n 128 128 = 0 := by
  unfold rdist xcoord ycoord
  rw [show ((128:ℕ):ℝ) - ((n:ℝ) - 1) / 2 = 0 by rw [hodd]; norm_num]
  norm_num [SPHERE_CENTER_CM, Real.sqrt_zero]

theorem thicknessEntry_center_odd (n : ℕ) (hodd : (n:ℝ) - 1 = 2 * 128) :
    thicknessEntry n n 128 128 = 12 := by
  unfold thicknessEntry
  rw [rdist_center n hodd]
  rw [if_pos (by norm_num [SPHERE_RADIUS_CM])]
  rw [show max 0 (SPHERE_RADIUS_CM ^ 2 - (0:ℝ) ^ 2) = 36 by
    norm_num [SPHERE_RADIUS_CM]]
  rw [sqrt_thirtysix]
  norm_num

theorem thicknessEntry_one : thicknessEntry 1 1 0 0 = 12 := by
  have hr : rdist 1 1 0 0 = 0 := by
    norm_num [rdist, xcoord, ycoord, pixelSize, SPHERE_CENTER_CM, Real.sqrt_zero]
  unfold thicknessEntry
  rw [hr, if_pos (by norm_num [SPHERE_RADIUS_CM])]
  rw [show max 0 (SPHERE_RADIUS_CM ^ 2 - (0:ℝ) ^ 2) = 36 by
    norm_num [SPHERE_RADIUS_CM]]
  rw [sqrt_thirtysix]
  norm_num

theorem clip_eq_self {x : ℝ} (h0 : 0 ≤ x) (h1 : x ≤ 1) : clip x 0 1 = x := by
  unfold clip
  rw [max_eq_right h0, min_eq_right h1]

/-! ### Claim theorems -/

/-- C1: for every current, voltage and shape `(H, W)` with `H > 0` and
`W > 0`, every element of the array returned by `simulate` lies in the
closed interval `[0, 1]`. -/
theorem simulate_range (mA kVp : ℝ) (H W : ℕ) (s : Option ℤ)
    (hH : 0 < H) (hW : 0 < W) :
    ∀ row ∈ simulate mA kVp H W s, ∀ x ∈ row, 0 ≤ x ∧ x ≤ 1 := by
  intro row hrow x hx
  simp only [simulate, List.mem_map] at hrow
  obtain ⟨i, _, rfl⟩ := hrow
  simp only [List.mem_map] at hx
  obtain ⟨j, _, rfl⟩ := hx
  exact ⟨simulatePixel_nonneg mA kVp H W i j, simulatePixel_le_one mA kVp H W i j⟩

/-- Witness for C1 at `mA = 200`, `kVp = 70`, shape `(1, 1)`. -/
theorem simulate_range_witness :
    0 ≤ simulatePixel 200 70 1 1 0 0 ∧ simulatePixel 200 70 1 1 0 0 ≤ 1 :=
  simulate_range 200 70 1 1 none one_pos one_pos
    [simulatePixel 200 70 1 1 0 0] (List.mem_singleton_self _)
    (simulatePixel 200 70 1 1 0 0) (List.mem_singleton_self _)

/-- C2: for all positive `H`, `W` and every current and voltage, the array
returned by `simulate` has shape exactly `(H, W)`: `H` rows, each of
length `W`. -/
theorem simulate_shape (mA kVp : ℝ) (H W : ℕ) (s : Option ℤ)
    (hH : 0 < H) (hW : 0 < W) :
    (simulate mA kVp H W s).length = H ∧
      ∀ row ∈ simulate mA kVp H W s, row.length = W := by
  constructor
  · simp [simulate]
  · intro row hrow
    simp only [simulate, List.mem_map] at hrow
    obtain ⟨i, _, rfl⟩ := hrow
    simp

/-- Witness for C2 at shape `(2, 3)`. -/
theorem simulate_shape_witness :
    (simulate 200 70 2 3 none).length = 2 ∧
      ((List.range 3).map fun j => simulatePixel 200 70 2 3 0 j).length = 3 :=
  ⟨(simulate_shape 200 70 2 3 none (by norm_num) (by norm_num)).1,
   (simulate_shape 200 70 2 3 none (by norm_num) (by norm_num)).2
     ((List.range 3).map fun j => simulatePixel 200 70 2 3 0 j)
     (List.Mem.head _)⟩

/-- C8: `simulate` hits the assertion failure exactly when `H ≤ 0` or
`W ≤ 0`; for every positive shape it returns an array for any current
and voltage. -/
theorem simulateChecked_fails_iff (mA kVp : ℝ) (s : Option ℤ) (Hs Ws : ℤ) :
    simulateChecked mA kVp Hs Ws s = none ↔ Hs ≤ 0 ∨ Ws ≤ 0 := by
  unfold simulateChecked
  split
  · rename_i h
    simp only [reduceCtorEq, false_iff]
    push_neg
    exact ⟨h.1, h.2⟩
  · rename_i h
    push_neg at h
    simp only [true_iff]
    by_cases h1 : 0 < Hs
    · exact Or.inr (h h1)
    · exact Or.inl (not_lt.mp h1)

/-- C9: the output depends only on `(current, voltage, shape)`; the `seed`
argument is accepted but ignored, so any two seeds give exactly equal
arrays (and identical arguments give identical output). -/
theorem simulate_seed_irrelevant (mA kVp : ℝ) (Hs Ws : ℤ) (s1 s2 : Option ℤ) :
    simulateChecked mA kVp Hs Ws s1 = simulateChecked mA kVp Hs Ws s2 := rfl

/-- C10: every element of the output is strictly positive: `I0 ≥ 0.60` and
`exp` is positive, so the lower clamp at `0` never binds. -/
theorem simulate_pos (mA kVp : ℝ) (H W : ℕ) (s : Option ℤ)
    (hH : 0 < H) (hW : 0 < W) :
    ∀ row ∈ simulate mA kVp H W s, ∀ x ∈ row, 0 < x := by
  intro row hrow x hx
  simp only [simulate, List.mem_map] at hrow
  obtain ⟨i, _, rfl⟩ := hrow
  simp only [List.mem_map] at hx
  obtain ⟨j, _, rfl⟩ := hx
  exact simulatePixel_pos mA kVp H W i j

/-- Witness for C10 at `mA = 10`, `kVp = 120`, shape `(1, 1)`. -/
theorem simulate_pos_witness : 0 < simulatePixel 10 120 1 1 0 0 :=
  simulate_pos 10 120 1 1 none one_pos one_pos
    [simulatePixel 10 120 1 1 0 0] (List.mem_singleton_self _)
    (simulatePixel 10 120 1 1 0 0) (List.mem_singleton_self _)

/-- C3: for fixed voltage and positive shape, and currents
`10 ≤ c1 ≤ c2 ≤ 500`, each pixel of `simulate c1` is at most the
corresponding pixel of `simulate c2`. -/
theorem simulate_mono_current (kVp : ℝ) (H W : ℕ) (s : Option ℤ)
    (c1 c2 : ℝ) (hc1 : 10 ≤ c1) (h12 : c1 ≤ c2) (hc2 : c2 ≤ 500)
    (hH : 0 < H) (hW : 0 < W) :
    ∀ i j : ℕ, i < H → j < W →
      ((simulate c1 kVp H W s).getD i []).getD j 0 ≤
        ((simulate c2 kVp H W s).getD i []).getD j 0 := by
  intro i j hi hj
  rw [simulate_entry c1 kVp H W s i j hi hj, simulate_entry c2 kVp H W s i j hi hj]
  exact clip_mono _ _
    (mul_le_mul_of_nonneg_right (I0val_mono h12) (Real.exp_nonneg _))

/-- Witness for C3 at `c1 = 100`, `c2 = 300`, `kVp = 70`, shape `(1, 1)`. -/
theorem simulate_mono_current_witness :
    ((simulate 100 70 1 1 none).getD 0 []).getD 0 0 ≤
      ((simulate 300 70 1 1 none).getD 0 []).getD 0 0 :=
  simulate_mono_current 70 1 1 none 100 300 (by norm_num) (by norm_num)
    (by norm_num) one_pos one_pos 0 0 one_pos one_pos

/-- C5: for every positive shape, `simulate` with `voltage = 0` does not hit
the assertion failure, and for every voltage `v ≤ 10` the output equals the
output for voltage `10`, because the voltage is floored at `10` before use. -/
theorem simulate_voltage_floor (mA v : ℝ) (Hs Ws : ℤ) (s : Option ℤ)
    (hH : 0 < Hs) (hW : 0 < Ws) (hv : v ≤ 10) :
    simulateChecked mA 0 Hs Ws s ≠ none ∧
      simulateChecked mA v Hs Ws s = simulateChecked mA 10 Hs Ws s := by
  constructor
  · simp [simulateChecked, hH, hW]
  · unfold simulateChecked
    rw [simulate_congr_mu mA Hs.toNat Ws.toNat s (muEff_of_le_ten hv)]

/-- Witness for C5 at `mA = 200`, `v = 0`, shape `(2, 2)`. -/
theorem simulate_voltage_floor_witness :
    simulateChecked 200 0 2 2 none ≠ none ∧
      simulateChecked 200 0 2 2 none = simulateChecked 200 10 2 2 none :=
  simulate_voltage_floor 200 0 2 2 none (by norm_num) (by norm_num) (by norm_num)

/-- C6: the normalized current clamps at the boundary: for `c < 10` the
output equals that at current `10`, for `c > 500` that at current `500`,
and `I0` always stays within `[I0_MIN, I0_MAX] = [0.60, 1.40]` (no
extrapolation of the linear mapping outside `[10, 500]`). -/
theorem simulate_current_clamp (kVp : ℝ) (H W : ℕ) (s : Option ℤ) (c : ℝ) :
    (c < 10 → simulate c kVp H W s = simulate 10 kVp H W s) ∧
      (500 < c → simulate c kVp H W s = simulate 500 kVp H W s) ∧
      I0_MIN ≤ I0val c ∧ I0val c ≤ I0_MAX := by
  refine ⟨fun hc => ?_, fun hc => ?_, I0val_lower c, I0val_upper c⟩
  · refine simulate_congr_I0 kVp H W s ?_
    unfold I0val
    rw [normalize_eq_zero (le_of_lt hc), normalize_eq_zero (le_refl (10:ℝ))]
  · refine simulate_congr_I0 kVp H W s ?_
    unfold I0val
    rw [normalize_eq_one (le_of_lt hc) (by norm_num),
      normalize_eq_one (le_refl (500:ℝ)) (by norm_num)]

/-- Witness for C6 at `c = 5` (below) and `c = 600` (above), shape `(1, 1)`. -/
theorem simulate_current_clamp_witness :
    simulate 5 70 1 1 none = simulate 10 70 1 1 none ∧
      simulate 600 70 1 1 none = simulate 500 70 1 1 none ∧
      I0_MIN ≤ I0val 5 ∧ I0val 5 ≤ I0_MAX :=
  ⟨(simulate_current_clamp 70 1 1 none 5).1 (by norm_num),
   (simulate_current_clamp 70 1 1 none 600).2.1 (by norm_num),
   (simulate_current_clamp 70 1 1 none 5).2.2⟩

/-- C4: for fixed current and positive shape, and voltages `10 < v1 ≤ v2`,
the attenuation coefficient for `v2` is at most that for `v1`, and each
pixel inside the phantom silhouette does not decrease as voltage
increases. -/
theorem simulate_mono_voltage (mA : ℝ) (H W : ℕ) (s : Option ℤ)
    (v1 v2 : ℝ) (hv1 : 10 < v1) (h12 : v1 ≤ v2) (hH : 0 < H) (hW : 0 < W) :
    muEff v2 ≤ muEff v1 ∧
      ∀ i j : ℕ, i < H → j < W → 0 < thicknessEntry H W i j →
        ((simulate mA v1 H W s).getD i []).getD j 0 ≤
          ((simulate mA v2 H W s).getD i []).getD j 0 := by
  have hmu := muEff_antitone hv1 h12
  refine ⟨hmu, fun i j hi hj _ => ?_⟩
  rw [simulate_entry mA v1 H W s i j hi hj, simulate_entry mA v2 H W s i j hi hj]
  refine clip_mono _ _ (mul_le_mul_of_nonneg_left ?_ (le_of_lt (I0val_pos mA)))
  refine Real.exp_le_exp.mpr ?_
  have := mul_le_mul_of_nonneg_right hmu (thicknessEntry_nonneg H W i j)
  linarith

/-- Witness for C4 at `mA = 200`, `v1 = 60`, `v2 = 70`, shape `(1, 1)`,
whose single pixel has thickness `12 > 0`. -/
theorem simulate_mono_voltage_witness :
    muEff 70 ≤ muEff 60 ∧
      ((simulate 200 60 1 1 none).getD 0 []).getD 0 0 ≤
        ((simulate 200 70 1 1 none).getD 0 []).getD 0 0 :=
  have h := simulate_mono_voltage 200 1 1 none 60 70 (by norm_num) (by norm_num)
    one_pos one_pos
  ⟨h.1, h.2 0 0 one_pos one_pos (by rw [thicknessEntry_one]; norm_num)⟩

/-- C7 counterexample: on the even `256 × 256` grid no pixel sits at the
exact grid center; all four pixels nearest the center (rows and columns
`127` and `128`) have thickness strictly different from `12`, so the claim
"the pixel at the grid center has the maximal thickness `2 * R = 12`"
fails for shape `(256, 256)`. -/
theorem simulate_center_rounding :
    thicknessEntry 256 256 127 127 ≠ 12 ∧ thicknessEntry 256 256 127 128 ≠ 12 ∧
      thicknessEntry 256 256 128 127 ≠ 12 ∧ thicknessEntry 256 256 128 128 ≠ 12 :=
  ⟨ne_of_lt (thicknessEntry_lt_of_rdist_pos (rdist_pos_of_sq (by
      norm_num [xcoord, ycoord, pixelSize, SPHERE_CENTER_CM, FOV_X_CM]))),
   ne_of_lt (thicknessEntry_lt_of_rdist_pos (rdist_pos_of_sq (by
      norm_num [xcoord, ycoord, pixelSize, SPHERE_CENTER_CM, FOV_X_CM]))),
   ne_of_lt (thicknessEntry_lt_of_rdist_pos (rdist_pos_of_sq (by
      norm_num [xcoord, ycoord, pixelSize, SPHERE_CENTER_CM, FOV_X_CM]))),
   ne_of_lt (thicknessEntry_lt_of_rdist_pos (rdist_pos_of_sq (by
      norm_num [xcoord, ycoord, pixelSize, SPHERE_CENTER_CM, FOV_X_CM])))⟩

/-- C7 amended: on an odd grid `(257, 257)` the exact center pixel
`(128, 128)` exists; it has the maximal thickness `2 * R = 12` cm and its
intensity for `current = 200`, `voltage = 70` equals `I0 * exp(-mu * 12)`
with `mu = max(0.05, 0.50 * (60 / 70) ** 2.2)` and
`I0 = 0.60 + 0.80 * clip((200 - 10) / (500 - 10), 0, 1)` as prescribed by
spec section 4.1 steps 4–5. -/
theorem simulate_center_value :
    thicknessEntry 257 257 128 128 = 12 ∧
      simulatePixel 200 70 257 257 128 128 =
        (0.60 + 0.80 * clip ((200 - 10) / (500 - 10)) 0 1) *
          Real.exp (-(max 0.05 (0.50 * ((60:ℝ) / 70) ^ (2.2:ℝ))) * 12) := by
  have ht : thicknessEntry 257 257 128 128 = 12 :=
    thicknessEntry_center_odd 257 (by norm_num)
  have hclip : clip (((200:ℝ) - 10) / (500 - 10)) 0 1 = 19 / 49 := by
    unfold clip
    rw [max_eq_right (by norm_num), min_eq_right (by norm_num)]
    norm_num
  have hI0 : I0val 200 = 0.60 + 0.80 * clip (((200:ℝ) - 10) / (500 - 10)) 0 1 := by
    unfold I0val normalize I0_MIN I0_MAX
    rw [if_neg (by norm_num)]
    norm_num
  have hmu : muEff 70 = max 0.05 (0.50 * ((60:ℝ) / 70) ^ (2.2:ℝ)) := by
    unfold muEff MU_MIN MU_REF_CM1 KVP_REF MU_POWER
    rw [max_eq_right (by norm_num : (10:ℝ) ≤ 70)]
    norm_num
  have hval0 : 0 ≤ I0val 200 * Real.exp (-muEff 70 * 12) :=
    mul_nonneg (le_of_lt (I0val_pos 200)) (Real.exp_nonneg _)
  have hexp1 : Real.exp (-muEff 70 * 12) ≤ 1 := by
    rw [Real.exp_le_one_iff]
    have := muEff_pos 70
    nlinarith
  have hI0le : I0val 200 ≤ 1 := by
    rw [hI0, hclip]
    norm_num
  have hval1 : I0val 200 * Real.exp (-muEff 70 * 12) ≤ 1 := by
    calc I0val 200 * Real.exp (-muEff 70 * 12)
        ≤ I0val 200 * 1 :=
          mul_le_mul_of_nonneg_left hexp1 (le_of_lt (I0val_pos 200))
      _ ≤ 1 := by rw [mul_one]; exact hI0le
  refine ⟨ht, ?_⟩
  unfold simulatePixel
  rw [ht, clip_eq_self hval0 hval1, hI0, hmu]

end Physics
